import Mathlib

/-!
Verification of the core grid-editor logic of src/src/App.tsx: the fixed
nine-column schema, the duplicate-value index, row growth, cell updates,
clipboard paste parsing and application, keyboard navigation, and the
persistence round trip.

A row object holding exactly the nine schema columns is embedded as a list
of nine strings in schema order; the invariant that every row has exactly
one entry per column becomes the statement that every row list has length
nine.  The JavaScript Map used by the duplicate index is embedded as an
association list with Map.get and push-onto-group operations.
-/

namespace ExcelApp

/-- The fixed column schema, in order (columnOrder in App.tsx). -/
def columnOrder : List String :=
  ["Keyword", "Prefix", "Suffix", "Middle", "City", "FirstName",
   "3 letter", "4 letter", "Extensions"]

/-- Number of schema columns (columnOrder.length in App.tsx). -/
def columnCount : Nat := columnOrder.length

/-- A row: one string per schema column, in schema order. -/
abbrev RowData := List String

/-- The worksheet: an ordered sequence of rows. -/
abbrev Worksheet := List RowData

/-- createEmptyRow in App.tsx: one empty string for every schema column. -/
def createEmptyRow : RowData := columnOrder.map (fun _ => "")

/-- INITIAL_ROW_COUNT in App.tsx. -/
def INITIAL_ROW_COUNT : Nat := 8

/-- The whitespace characters stripped by the JavaScript trim method
(the ASCII whitespace plus the common Unicode space characters the app
can meet). -/
def isJsSpace (c : Char) : Bool :=
  c = ' ' ∨ c = '\t' ∨ c = '\n' ∨ c = '\r' ∨ c = '\x0b' ∨ c = '\x0c' ∨
    c = '\u00a0' ∨ c = '\ufeff'

/-- Strip leading and trailing whitespace from a character list. -/
def trimChars (cs : List Char) : List Char :=
  ((cs.dropWhile isJsSpace).reverse.dropWhile isJsSpace).reverse

/-- The JavaScript trim method. -/
def trimString (s : String) : String := String.mk (trimChars s.data)

/-- The JavaScript toLowerCase method, character by character. -/
def lowerString (s : String) : String := String.mk (s.data.map Char.toLower)

/-- normalizeValue in App.tsx: value.trim().toLowerCase(). -/
def normalizeValue (value : String) : String := lowerString (trimString value)

/-- Read a cell; out-of-range positions read as the empty string. -/
def getCell (rows : Worksheet) (r c : Nat) : String := (rows.getD r []).getD c ""

/-- The duplicate lookup Map, embedded as an association list from
normalized value to the list of coordinates pushed for that value. -/
abbrev Lookup := List (String × List (Nat × Nat))

/-- Map.get followed by push: append a coordinate to the group of key k,
creating the group when the key is absent. -/
def mapPush (m : Lookup) (k : String) (v : Nat × Nat) : Lookup :=
  match m with
  | [] => [(k, [v])]
  | (k', vs) :: rest => if k' = k then (k', vs ++ [v]) :: rest else (k', vs) :: mapPush rest k v

/-- Map.get, with a missing key reading as the empty group. -/
def mapGet (m : Lookup) (k : String) : List (Nat × Nat) :=
  match m with
  | [] => []
  | (k', vs) :: rest => if k' = k then vs else mapGet rest k

/-- One step of the inner columnOrder.forEach loop of duplicateLookup:
skip a cell whose normalized value is empty, otherwise push its
coordinate onto the group of its normalized value. -/
def colStep (rowIdx : Nat) (row : RowData) (acc : Lookup) (colIdx : Nat) : Lookup :=
  if normalizeValue (row.getD colIdx "") = "" then acc
  else mapPush acc (normalizeValue (row.getD colIdx "")) (rowIdx, colIdx)

/-- The inner columnOrder.forEach loop of duplicateLookup. -/
def lookupStep (rowIdx : Nat) (row : RowData) (m : Lookup) : Lookup :=
  (List.range columnCount).foldl (colStep rowIdx row) m

/-- The outer rows.forEach loop of duplicateLookup, carrying the row index. -/
def lookupRows (rowIdx : Nat) (rs : List RowData) (m : Lookup) : Lookup :=
  match rs with
  | [] => m
  | row :: rest => lookupRows (rowIdx + 1) rest (lookupStep rowIdx row m)

/-- duplicateLookup in App.tsx: the normalized-value index of the worksheet. -/
def duplicateLookup (rows : Worksheet) : Lookup := lookupRows 0 rows []

/-- isDuplicateCell in App.tsx: empty normalized values are never
duplicates; otherwise ask whether the group of the normalized value in
the lookup has more than one member. -/
def isDuplicateCell (rows : Worksheet) (rowIdx colIdx : Nat) : Bool :=
  if normalizeValue (getCell rows rowIdx colIdx) = "" then false
  else decide (1 < (mapGet (duplicateLookup rows) (normalizeValue (getCell rows rowIdx colIdx))).length)

/-- Specification-side count: how many in-range cells of the worksheet
have normalized value n. -/
def matchCount (rows : Worksheet) (n : String) : Nat :=
  ((List.range rows.length).map
    (fun r => ((List.range columnCount).filter
      (fun c => normalizeValue (getCell rows r c) = n)).length)).sum

lemma mapGet_mapPush (m : Lookup) (k : String) (v : Nat × Nat) (n : String) :
    mapGet (mapPush m k v) n = mapGet m n ++ (if n = k then [v] else []) := by
  induction m with
  | nil =>
    by_cases h : k = n
    · subst h; simp [mapPush, mapGet]
    · have h' : ¬ n = k := fun e => h e.symm
      simp [mapPush, mapGet, h, h']
  | cons hd tl ih =>
    obtain ⟨k', vs⟩ := hd
    by_cases h1 : k' = k
    · subst h1
      by_cases h2 : k' = n
      · subst h2; simp [mapPush, mapGet]
      · have h2' : ¬ n = k' := fun e => h2 e.symm
        simp [mapPush, mapGet, h2, h2']
    · by_cases h2 : k' = n
      · have hnk : ¬ n = k := fun e => h1 (h2.trans e)
        simp [mapPush, mapGet, h1, h2, hnk]
      · simp [mapPush, mapGet, h1, h2, ih]

lemma length_mapGet_colStep (rowIdx : Nat) (row : RowData) (m : Lookup) (colIdx : Nat)
    (n : String) (hn : n ≠ "") :
    (mapGet (colStep rowIdx row m colIdx) n).length =
      (mapGet m n).length + (if normalizeValue (row.getD colIdx "") = n then 1 else 0) := by
  unfold colStep
  by_cases he : normalizeValue (row.getD colIdx "") = ""
  · have hne : ¬ normalizeValue (row.getD colIdx "") = n := by
      rw [he]; exact fun h => hn h.symm
    rw [if_pos he, if_neg hne]
    omega
  · rw [if_neg he, mapGet_mapPush, List.length_append]
    by_cases hv : normalizeValue (row.getD colIdx "") = n
    · have hv' : n = normalizeValue (row.getD colIdx "") := hv.symm
      rw [if_pos hv', if_pos hv]
      simp
    · have hv' : ¬ n = normalizeValue (row.getD colIdx "") := fun e => hv e.symm
      rw [if_neg hv', if_neg hv]
      simp

lemma length_mapGet_foldl_colStep (rowIdx : Nat) (row : RowData) (n : String) (hn : n ≠ "") :
    ∀ (cis : List Nat) (m : Lookup),
      (mapGet (cis.foldl (colStep rowIdx row) m) n).length =
        (mapGet m n).length +
          ((cis.filter (fun ci => normalizeValue (row.getD ci "") = n)).length) := by
  intro cis
  induction cis with
  | nil => intro m; simp
  | cons ci cis ih =>
    intro m
    rw [List.foldl_cons, ih, length_mapGet_colStep rowIdx row m ci n hn, List.filter_cons]
    by_cases hv : normalizeValue (row.getD ci "") = n
    · rw [if_pos hv, if_pos (by simpa using hv), List.length_cons]
      omega
    · rw [if_neg hv, if_neg (by simpa using hv)]
      omega

lemma length_mapGet_lookupStep (rowIdx : Nat) (row : RowData) (m : Lookup)
    (n : String) (hn : n ≠ "") :
    (mapGet (lookupStep rowIdx row m) n).length =
      (mapGet m n).length +
        ((List.range columnCount).filter
          (fun ci => normalizeValue (row.getD ci "") = n)).length := by
  unfold lookupStep
  exact length_mapGet_foldl_colStep rowIdx row n hn (List.range columnCount) m

lemma length_mapGet_lookupRows (n : String) (hn : n ≠ "") :
    ∀ (rs : List RowData) (rowIdx : Nat) (m : Lookup),
      (mapGet (lookupRows rowIdx rs m) n).length =
        (mapGet m n).length +
          (rs.map (fun row =>
            ((List.range columnCount).filter
              (fun ci => normalizeValue (row.getD ci "") = n)).length)).sum := by
  intro rs
  induction rs with
  | nil => intro rowIdx m; simp [lookupRows]
  | cons row rest ih =>
    intro rowIdx m
    rw [show lookupRows rowIdx (row :: rest) m
        = lookupRows (rowIdx + 1) rest (lookupStep rowIdx row m) from rfl]
    rw [ih, length_mapGet_lookupStep rowIdx row m n hn, List.map_cons, List.sum_cons]
    omega

lemma matchCount_eq_sum (rows : Worksheet) (n : String) :
    matchCount rows n =
      (rows.map (fun row =>
        ((List.range columnCount).filter
          (fun ci => normalizeValue (row.getD ci "") = n)).length)).sum := by
  induction rows with
  | nil => simp [matchCount]
  | cons row rest ih =>
    unfold matchCount
    rw [List.length_cons, List.range_succ_eq_map, List.map_cons, List.sum_cons, List.map_map]
    rw [List.map_cons, List.sum_cons]
    congr 1

lemma length_mapGet_duplicateLookup (rows : Worksheet) (n : String) (hn : n ≠ "") :
    (mapGet (duplicateLookup rows) n).length = matchCount rows n := by
  rw [duplicateLookup, length_mapGet_lookupRows n hn rows 0 [], matchCount_eq_sum]
  simp [mapGet]

/-- C1: isDuplicate(row, column) is true iff the normalized (trimmed then
case-folded) value of the cell is non-empty and at least two cells of the
whole worksheet carry that normalized value; in particular a cell whose
trimmed value is empty is never reported as a duplicate. -/
theorem isDuplicateCell_iff_shared (rows : Worksheet) (r c : Nat)
    (_hr : r < rows.length) (_hc : c < columnCount) :
    isDuplicateCell rows r c = true ↔
      (normalizeValue (getCell rows r c) ≠ "" ∧
        2 ≤ matchCount rows (normalizeValue (getCell rows r c))) := by
  unfold isDuplicateCell
  by_cases hn : normalizeValue (getCell rows r c) = ""
  · simp [hn]
  · rw [if_neg hn, length_mapGet_duplicateLookup rows _ hn]
    simp [hn]
    omega

/-- A worksheet with two cells normalizing to the same non-empty value. -/
def wsDup : Worksheet :=
  [[" Paris ", "", "", "", "", "", "", "", ""],
   ["paris", "", "", "", "", "", "", "", ""]]

theorem isDuplicateCell_iff_shared_witness :
    isDuplicateCell wsDup 0 0 = true ↔
      (normalizeValue (getCell wsDup 0 0) ≠ "" ∧
        2 ≤ matchCount wsDup (normalizeValue (getCell wsDup 0 0))) :=
  isDuplicateCell_iff_shared wsDup 0 0 (by decide) (by decide)

/-! ## Grid model operations -/

/-- ensureRowExists in App.tsx: no-op when targetRow is in bounds,
otherwise append targetRow - length + 1 fresh empty rows. -/
def ensureRowExists (targetRow : Nat) (rows : Worksheet) : Worksheet :=
  if targetRow < rows.length then rows
  else rows ++ List.replicate (targetRow - rows.length + 1) createEmptyRow

/-- addRows in App.tsx: append count fresh empty rows. -/
def addRows (count : Nat) (rows : Worksheet) : Worksheet :=
  rows ++ List.replicate count createEmptyRow

/-- updateCellValue in App.tsx: replace one column of one existing row. -/
def updateCellValue (rowIdx colIdx : Nat) (value : String) (rows : Worksheet) : Worksheet :=
  rows.set rowIdx ((rows.getD rowIdx []).set colIdx value)

/-- The while loop inside applyPasteData: push empty rows one at a time
until targetRow is a valid index. -/
def growTo (rows : Worksheet) (targetRow : Nat) : Worksheet :=
  if targetRow < rows.length then rows
  else rows ++ List.replicate (targetRow + 1 - rows.length) createEmptyRow

/-- The gridRow.forEach loop of applyPasteData, carrying the column
offset: a value whose target column falls outside the schema is skipped,
any other value overwrites its target column.  The source also guards
against targetCol < 0, which cannot happen for natural offsets. -/
def applyPasteRowAux (startCol : Nat) : Nat → List String → RowData → RowData
  | _, [], row => row
  | colOffset, value :: restVals, row =>
    applyPasteRowAux startCol (colOffset + 1) restVals
      (if startCol + colOffset < columnCount then row.set (startCol + colOffset) value else row)

/-- Apply one parsed grid row to a worksheet row starting at startCol. -/
def applyPasteRow (startCol : Nat) (gridRow : List String) (row : RowData) : RowData :=
  applyPasteRowAux startCol 0 gridRow row

/-- The grid.forEach loop of applyPasteData, carrying the row offset:
grow up to the target row, rebuild that row with the pasted values, and
write it back. -/
def applyPasteAux (startRow startCol : Nat) : Nat → List (List String) → Worksheet → Worksheet
  | _, [], next => next
  | rowOffset, gridRow :: restRows, next =>
    applyPasteAux startRow startCol (rowOffset + 1) restRows
      ((growTo next (startRow + rowOffset)).set (startRow + rowOffset)
        (applyPasteRow startCol gridRow ((growTo next (startRow + rowOffset)).getD (startRow + rowOffset) [])))

/-- applyPasteData in App.tsx. -/
def applyPasteData (startRow startCol : Nat) (grid : List (List String)) (rows : Worksheet) : Worksheet :=
  applyPasteAux startRow startCol 0 grid rows

/-! ## Navigation controller -/

/-- The state owned by the App component that the navigation commands
touch: the worksheet and the editing-cell focus. -/
structure AppState where
  rows : Worksheet
  editingCell : Option (Nat × Nat)

/-- focusCell in App.tsx: negative target rows are ignored; otherwise
grow the worksheet to the target row, clamp the column into the schema,
and set the focus. -/
def focusCell (targetRow targetCol : Int) (s : AppState) : AppState :=
  if targetRow < 0 then s
  else
    { rows := ensureRowExists targetRow.toNat s.rows,
      editingCell := some (targetRow.toNat, (min (max targetCol 0) ((columnCount : Int) - 1)).toNat) }

/-- handleKeyDown in App.tsx, for the Enter and Tab branches.  The
mutable nextCol and nextRow of the source are expressed by the three
possible focusCell calls. -/
def handleKeyDown (key : String) (shiftKey : Bool) (rowIdx colIdx : Nat) (s : AppState) : AppState :=
  if key = "Enter" then focusCell ((rowIdx : Int) + 1) (colIdx : Int) s
  else if key = "Tab" then
    if ((colIdx : Int) + (if shiftKey then -1 else 1)) ≥ (columnCount : Int) then
      focusCell ((rowIdx : Int) + 1) 0 s
    else if ((colIdx : Int) + (if shiftKey then -1 else 1)) < 0 then
      focusCell (max 0 ((rowIdx : Int) - 1)) ((columnCount : Int) - 1) s
    else
      focusCell (rowIdx : Int) ((colIdx : Int) + (if shiftKey then -1 else 1)) s
  else s

/-! ## Paste parsing -/

/-- The split of the clipboard text on CRLF, bare LF or bare CR, in that
order of preference, as the regex alternation of handlePaste does. -/
def splitLinesList : List Char → List (List Char)
  | [] => [[]]
  | '\r' :: '\n' :: rest => [] :: splitLinesList rest
  | '\r' :: rest => [] :: splitLinesList rest
  | '\n' :: rest => [] :: splitLinesList rest
  | c :: rest =>
    match splitLinesList rest with
    | [] => [[c]]
    | l :: ls => (c :: l) :: ls

/-- The split of one line on the tab character. -/
def splitTabs : List Char → List (List Char)
  | [] => [[]]
  | c :: rest =>
    if c = '\t' then [] :: splitTabs rest
    else
      match splitTabs rest with
      | [] => [[c]]
      | l :: ls => (c :: l) :: ls

/-- The parse step of handlePaste: split into lines, then split each
line on tabs. -/
def parseClipboard (text : String) : List (List String) :=
  (splitLinesList text.data).map (fun line => (splitTabs line).map (fun cell => String.mk cell))

/-- handlePaste in App.tsx: an empty clipboard payload is a no-op,
otherwise parse and apply. -/
def handlePaste (rowIdx colIdx : Nat) (text : String) (rows : Worksheet) : Worksheet :=
  if text = "" then rows else applyPasteData rowIdx colIdx (parseClipboard text) rows

/-! ## Persistence adapter -/

/-- The value written to the durable store after a mutation: the full
worksheet, one object per row with exactly the schema columns. -/
def persistedValue (rows : Worksheet) : List (List String) := rows

/-- The read side of one stored row object: every schema column is read
from the entry, missing entries read as empty, and values are trimmed. -/
def loadRow (entry : List String) : RowData :=
  (List.range columnCount).map (fun colIdx => trimString (entry.getD colIdx ""))

/-- The read side of the stored worksheet. -/
def loadRows (parsed : List (List String)) : Worksheet := parsed.map loadRow

/-- The useState initializer of App.tsx: absent or empty stored data
falls back to the fresh worksheet of eight empty rows, anything else is
loaded row by row. -/
def initialRows (stored : Option (List (List String))) : Worksheet :=
  match stored with
  | none => List.replicate INITIAL_ROW_COUNT createEmptyRow
  | some parsed =>
    if parsed.length = 0 then List.replicate INITIAL_ROW_COUNT createEmptyRow
    else loadRows parsed

/-- The fresh first-run worksheet. -/
def freshWorksheet : Worksheet := List.replicate INITIAL_ROW_COUNT createEmptyRow

/-- The initial app state before any focus. -/
def freshState : AppState := ⟨freshWorksheet, none⟩

/-! ## The row-shape invariant -/

/-- Every row holds exactly one entry per schema column. -/
abbrev WF (rows : Worksheet) : Prop := ∀ row ∈ rows, row.length = columnCount

/-- Specification-side description of which pasted value lands on a
cell: the paste block covers rows startRow + r and columns startCol + c
inside the schema. -/
def pasteTarget (startRow startCol : Nat) (grid : List (List String)) (r c : Nat) : Option String :=
  if startRow ≤ r ∧ r - startRow < grid.length ∧ startCol ≤ c ∧ c < columnCount ∧
      c - startCol < (grid.getD (r - startRow) []).length
  then some ((grid.getD (r - startRow) []).getD (c - startCol) "")
  else none

/-! ## Row growth (C6) and focus (C5, C4) -/

lemma length_ensureRowExists (targetRow : Nat) (rows : Worksheet) :
    (ensureRowExists targetRow rows).length = max rows.length (targetRow + 1) := by
  unfold ensureRowExists
  by_cases h : targetRow < rows.length
  · rw [if_pos h]; omega
  · rw [if_neg h, List.length_append, List.length_replicate]; omega

/-- C6: ensureRowExists is a no-op on an in-bounds target, otherwise it
appends exactly targetRow - length + 1 fresh empty rows so the new
length is targetRow + 1, and it is idempotent. -/
theorem ensureRowExists_spec (rows : Worksheet) (targetRow : Nat) :
    (targetRow < rows.length → ensureRowExists targetRow rows = rows) ∧
    (rows.length ≤ targetRow →
      ensureRowExists targetRow rows =
        rows ++ List.replicate (targetRow - rows.length + 1) createEmptyRow ∧
      (ensureRowExists targetRow rows).length = targetRow + 1) ∧
    ensureRowExists targetRow (ensureRowExists targetRow rows) = ensureRowExists targetRow rows := by
  refine ⟨fun h => by rw [ensureRowExists, if_pos h], fun h => ?_, ?_⟩
  · have hn : ¬ targetRow < rows.length := by omega
    refine ⟨by rw [ensureRowExists, if_neg hn], ?_⟩
    rw [length_ensureRowExists]; omega
  · have hlt : targetRow < (ensureRowExists targetRow rows).length := by
      rw [length_ensureRowExists]; omega
    rw [ensureRowExists, if_pos hlt]

theorem ensureRowExists_spec_witness :
    ensureRowExists 10 freshWorksheet =
      freshWorksheet ++ List.replicate 3 createEmptyRow ∧
    (ensureRowExists 10 freshWorksheet).length = 11 := by
  have h := (ensureRowExists_spec freshWorksheet 10).2.1 (by decide)
  exact ⟨by simpa using h.1, h.2⟩

/-- C5: focusCell ignores negative target rows entirely; for a
non-negative target row it grows the worksheet so the target row is a
valid index and focuses (targetRow, targetCol clamped into the schema
range [0, 8]). -/
theorem focusCell_spec (s : AppState) (targetRow targetCol : Int) :
    (targetRow < 0 → focusCell targetRow targetCol s = s) ∧
    (0 ≤ targetRow →
      (focusCell targetRow targetCol s).rows.length = max s.rows.length (targetRow.toNat + 1) ∧
      targetRow.toNat < (focusCell targetRow targetCol s).rows.length ∧
      (focusCell targetRow targetCol s).editingCell =
        some (targetRow.toNat, (min (max targetCol 0) ((columnCount : Int) - 1)).toNat) ∧
      (min (max targetCol 0) ((columnCount : Int) - 1)).toNat ≤ 8) := by
  constructor
  · intro h
    rw [focusCell, if_pos h]
  · intro h
    have hn : ¬ targetRow < 0 := by omega
    rw [focusCell, if_neg hn]
    refine ⟨by simpa using length_ensureRowExists targetRow.toNat s.rows, ?_, rfl, ?_⟩
    · simp only [length_ensureRowExists]
      omega
    · have : (columnCount : Int) - 1 = 8 := by decide
      omega

theorem focusCell_spec_witness :
    (focusCell 10 2 freshState).rows.length = 11 ∧
    (focusCell 10 2 freshState).editingCell = some (10, 2) := by
  have h := (focusCell_spec freshState 10 2).2 (by decide)
  exact ⟨by simpa using h.1, by simpa using h.2.2.1⟩

/-- C4: a forward Tab step from the last column wraps to column 0 of the
next row, a backward Shift+Tab step from column 0 wraps to the last
column of the previous row, clamped at row 0 (Nat subtraction encodes
max(0, rowIdx - 1)); any other step moves one column sideways in the
same row. -/
lemma editingCell_focusCell (targetRow targetCol : Int) (s : AppState) (h : 0 ≤ targetRow) :
    (focusCell targetRow targetCol s).editingCell =
      some (targetRow.toNat, (min (max targetCol 0) ((columnCount : Int) - 1)).toNat) := by
  rw [focusCell, if_neg (by omega)]

theorem handleKeyDown_tab_spec (s : AppState) (rowIdx colIdx : Nat) (shiftKey : Bool)
    (hc : colIdx < columnCount) :
    (handleKeyDown "Tab" shiftKey rowIdx colIdx s).editingCell =
      some (if shiftKey then
              (if colIdx = 0 then (rowIdx - 1, 8) else (rowIdx, colIdx - 1))
            else
              (if colIdx = 8 then (rowIdx + 1, 0) else (rowIdx, colIdx + 1))) := by
  have hcc : columnCount = 9 := by decide
  rw [hcc] at hc
  rw [handleKeyDown, if_neg (by decide), if_pos rfl]
  simp only [hcc]
  cases shiftKey with
  | false =>
    simp only [Bool.false_eq_true, if_false]
    split_ifs <;>
      first
        | (exfalso; omega)
        | (rw [editingCell_focusCell _ _ _ (by omega)]
           simp only [hcc, Option.some.injEq, Prod.mk.injEq]
           constructor <;> omega)
  | true =>
    simp only [eq_self_iff_true, ite_true]
    split_ifs <;>
      first
        | (exfalso; omega)
        | (rw [editingCell_focusCell _ _ _ (by omega)]
           simp only [hcc, Option.some.injEq, Prod.mk.injEq]
           constructor <;> omega)

theorem handleKeyDown_tab_spec_witness :
    (handleKeyDown "Tab" false 3 8 freshState).editingCell = some (4, 0) ∧
    (handleKeyDown "Tab" true 0 0 freshState).editingCell = some (0, 8) := by
  have h1 := handleKeyDown_tab_spec freshState 3 8 false (by decide)
  have h2 := handleKeyDown_tab_spec freshState 0 0 true (by decide)
  exact ⟨by simpa using h1, by simpa using h2⟩

/-! ## The row-shape invariant (C7) -/

lemma length_createEmptyRow : createEmptyRow.length = columnCount := by
  simp [createEmptyRow, columnCount]

lemma wf_replicate (n : Nat) : WF (List.replicate n createEmptyRow) := by
  intro row h
  rw [List.eq_of_mem_replicate h]
  exact length_createEmptyRow

lemma wf_append {rows1 rows2 : Worksheet} (h1 : WF rows1) (h2 : WF rows2) :
    WF (rows1 ++ rows2) := by
  intro row h
  rcases List.mem_append.mp h with h | h
  · exact h1 row h
  · exact h2 row h

lemma wf_ensureRowExists (targetRow : Nat) {rows : Worksheet} (h : WF rows) :
    WF (ensureRowExists targetRow rows) := by
  unfold ensureRowExists
  split
  · exact h
  · exact wf_append h (wf_replicate _)

lemma wf_addRows (count : Nat) {rows : Worksheet} (h : WF rows) :
    WF (addRows count rows) := wf_append h (wf_replicate _)

lemma getD_mem {rows : Worksheet} {r : Nat} (h : r < rows.length) :
    rows.getD r [] ∈ rows := by
  rw [List.getD_eq_getElem?_getD, List.getElem?_eq_getElem h]
  exact List.getElem_mem h

lemma wf_set {rows : Worksheet} {row' : RowData} (h : WF rows)
    (hrow : row'.length = columnCount) (i : Nat) : WF (rows.set i row') := by
  intro row hm
  rcases List.mem_or_eq_of_mem_set hm with hm | hm
  · exact h row hm
  · rw [hm]; exact hrow

lemma wf_updateCellValue (rowIdx colIdx : Nat) (value : String) {rows : Worksheet}
    (h : WF rows) : WF (updateCellValue rowIdx colIdx value rows) := by
  unfold updateCellValue
  by_cases hr : rowIdx < rows.length
  · refine wf_set h ?_ rowIdx
    rw [List.length_set]
    exact h _ (getD_mem hr)
  · rw [List.set_eq_of_length_le (by omega)]
    exact h

lemma wf_growTo (targetRow : Nat) {rows : Worksheet} (h : WF rows) :
    WF (growTo rows targetRow) := by
  unfold growTo
  split
  · exact h
  · exact wf_append h (wf_replicate _)

lemma length_growTo (rows : Worksheet) (targetRow : Nat) :
    (growTo rows targetRow).length = max rows.length (targetRow + 1) := by
  unfold growTo
  by_cases h : targetRow < rows.length
  · rw [if_pos h]; omega
  · rw [if_neg h, List.length_append, List.length_replicate]; omega

lemma length_applyPasteRowAux (startCol : Nat) :
    ∀ (colOffset : Nat) (vals : List String) (row : RowData),
      (applyPasteRowAux startCol colOffset vals row).length = row.length := by
  intro colOffset vals
  induction vals generalizing colOffset with
  | nil => intro row; rfl
  | cons v rest ih =>
    intro row
    rw [applyPasteRowAux, ih]
    split
    · rw [List.length_set]
    · rfl

lemma wf_applyPasteAux (startRow startCol : Nat) :
    ∀ (grid : List (List String)) (rowOffset : Nat) (next : Worksheet),
      WF next → WF (applyPasteAux startRow startCol rowOffset grid next) := by
  intro grid
  induction grid with
  | nil => intro rowOffset next h; exact h
  | cons gridRow restRows ih =>
    intro rowOffset next h
    rw [applyPasteAux]
    apply ih
    have hg : WF (growTo next (startRow + rowOffset)) := wf_growTo _ h
    refine wf_set hg ?_ _
    rw [show applyPasteRow startCol gridRow
        ((growTo next (startRow + rowOffset)).getD (startRow + rowOffset) [])
        = applyPasteRowAux startCol 0 gridRow
          ((growTo next (startRow + rowOffset)).getD (startRow + rowOffset) []) from rfl]
    rw [length_applyPasteRowAux]
    refine hg _ (getD_mem ?_)
    rw [length_growTo]
    omega

lemma wf_applyPasteData (startRow startCol : Nat) (grid : List (List String))
    {rows : Worksheet} (h : WF rows) : WF (applyPasteData startRow startCol grid rows) :=
  wf_applyPasteAux startRow startCol grid 0 rows h

lemma length_loadRow (entry : List String) : (loadRow entry).length = columnCount := by
  simp [loadRow]

lemma wf_initialRows (stored : Option (List (List String))) : WF (initialRows stored) := by
  cases stored with
  | none => exact wf_replicate _
  | some parsed =>
    rw [initialRows]
    split
    · exact wf_replicate _
    · intro row h
      rcases List.mem_map.mp h with ⟨entry, _, he⟩
      rw [← he]
      exact length_loadRow entry

/-- C7: every reachable worksheet is made of full rows: the initializer
(fresh or loaded from the store) produces only full rows, and
ensureRowExists, addRows, updateCellValue on an existing row, and paste
application preserve that shape, because new rows only come from the one
empty-row constructor and mutations only replace existing columns. -/
theorem rows_always_wellFormed :
    (∀ stored, WF (initialRows stored)) ∧
    (∀ rows targetRow, WF rows → WF (ensureRowExists targetRow rows)) ∧
    (∀ rows count, WF rows → WF (addRows count rows)) ∧
    (∀ rows rowIdx colIdx value, rowIdx < rows.length → WF rows →
      WF (updateCellValue rowIdx colIdx value rows)) ∧
    (∀ rows startRow startCol grid, WF rows → WF (applyPasteData startRow startCol grid rows)) :=
  ⟨fun stored => wf_initialRows stored,
   fun _ targetRow h => wf_ensureRowExists targetRow h,
   fun _ count h => wf_addRows count h,
   fun _ rowIdx colIdx value _ h => wf_updateCellValue rowIdx colIdx value h,
   fun _ startRow startCol grid h => wf_applyPasteData startRow startCol grid h⟩

theorem rows_always_wellFormed_witness :
    WF (updateCellValue 0 2 "x" (initialRows none)) ∧
    WF (applyPasteData 7 3 [["a", "b"]] freshWorksheet) :=
  ⟨rows_always_wellFormed.2.2.2.1 (initialRows none) 0 2 "x" (by decide)
      (rows_always_wellFormed.1 none),
   rows_always_wellFormed.2.2.2.2 freshWorksheet 7 3 [["a", "b"]] (by decide)⟩

/-! ## Persistence round trip (C8) -/

/-- A worksheet holding a value with surrounding whitespace. -/
def wsUntrimmed : Worksheet := [[" x ", "", "", "", "", "", "", "", ""]]

/-- C8 as stated fails: a stored value with surrounding whitespace is
trimmed on read, so the reloaded worksheet is not equal to the one that
was saved. -/
theorem roundTrip_not_identity :
    initialRows (some (persistedValue wsUntrimmed)) ≠ wsUntrimmed := by decide

lemma loadRow_eq_map_trim (entry : List String) (h : entry.length = columnCount) :
    loadRow entry = entry.map trimString := by
  apply List.ext_getElem
  · rw [length_loadRow, List.length_map, h]
  · intro i h1 h2
    rw [length_loadRow] at h1
    simp only [loadRow, List.getElem_map, List.getElem_range]
    congr 1
    rw [List.getD_eq_getElem?_getD, List.getElem?_eq_getElem (by omega : i < entry.length)]
    rfl

/-- C8 amended: reading back the persisted worksheet yields the same
rows in the same order with every cell value trimmed; in particular the
round trip is the identity exactly on worksheets whose values carry no
surrounding whitespace. -/
theorem roundTrip_trims (rows : Worksheet) (hWF : WF rows) (hne : rows ≠ []) :
    initialRows (some (persistedValue rows)) = rows.map (fun row => row.map trimString) ∧
    ((∀ row ∈ rows, ∀ v ∈ row, trimString v = v) →
      initialRows (some (persistedValue rows)) = rows) := by
  have hlen : ¬ rows.length = 0 := by
    cases rows with
    | nil => exact absurd rfl hne
    | cons a l => simp
  have h1 : initialRows (some (persistedValue rows)) = loadRows rows := by
    show (if rows.length = 0 then List.replicate INITIAL_ROW_COUNT createEmptyRow
      else loadRows rows) = loadRows rows
    rw [if_neg hlen]
  constructor
  · rw [h1]
    exact List.map_congr_left (fun row hrow => loadRow_eq_map_trim row (hWF row hrow))
  · intro htr
    rw [h1]
    have hid : ∀ row ∈ rows, loadRow row = row := by
      intro row hrow
      rw [loadRow_eq_map_trim row (hWF row hrow)]
      calc row.map trimString = row.map id :=
            List.map_congr_left (fun v hv => htr row hrow v hv)
        _ = row := List.map_id row
    calc rows.map loadRow = rows.map id := List.map_congr_left hid
      _ = rows := List.map_id rows

/-- A worksheet whose values carry no surrounding whitespace. -/
def wsTrimmed : Worksheet := [["x", "", "", "", "", "", "", "", ""]]

theorem roundTrip_trims_witness :
    initialRows (some (persistedValue wsTrimmed)) = wsTrimmed :=
  (roundTrip_trims wsTrimmed (by decide) (by decide)).2 (by decide)

/-! ## Pointwise characterization of paste application (C2, C9, C10) -/

lemma getD_set_ne {α : Type} {l : List α} {i j : Nat} (h : i ≠ j) (a d : α) :
    (l.set i a).getD j d = l.getD j d := by
  rw [List.getD_eq_getElem?_getD, List.getElem?_set_ne h, ← List.getD_eq_getElem?_getD]

lemma getD_set_self {α : Type} {l : List α} {i : Nat} (h : i < l.length) (a d : α) :
    (l.set i a).getD i d = a := by
  rw [List.getD_eq_getElem?_getD, List.getElem?_set_self h]
  rfl

lemma getD_createEmptyRow (c : Nat) : createEmptyRow.getD c "" = "" := by
  rw [show createEmptyRow = List.replicate columnCount "" from by
    simp [createEmptyRow, columnCount, List.map_const']]
  rw [List.getD_eq_getElem?_getD, List.getElem?_replicate]
  split <;> rfl

lemma getCell_growTo (rows : Worksheet) (t r c : Nat) :
    getCell (growTo rows t) r c = getCell rows r c := by
  unfold growTo
  split
  · rfl
  · unfold getCell
    by_cases hr : r < rows.length
    · have h1 : (rows ++ List.replicate (t + 1 - rows.length) createEmptyRow).getD r []
          = rows.getD r [] := by
        rw [List.getD_eq_getElem?_getD, List.getD_eq_getElem?_getD,
          List.getElem?_append_left hr]
      rw [h1]
    · have h1 : (rows ++ List.replicate (t + 1 - rows.length) createEmptyRow).getD r []
          = if r - rows.length < t + 1 - rows.length then createEmptyRow else [] := by
        rw [List.getD_eq_getElem?_getD, List.getElem?_append_right (by omega),
          List.getElem?_replicate]
        split <;> rfl
      have h2 : rows.getD r [] = [] := by
        rw [List.getD_eq_getElem?_getD, List.getElem?_eq_none (by omega)]
        rfl
      rw [h1, h2]
      split
      · rw [getD_createEmptyRow]
        rfl
      · rfl

lemma getCell_set_ne {rows : Worksheet} {i r : Nat} (h : i ≠ r) (row' : RowData) (c : Nat) :
    getCell (rows.set i row') r c = getCell rows r c := by
  unfold getCell
  rw [getD_set_ne h]

lemma getCell_set_self {rows : Worksheet} {i : Nat} (h : i < rows.length)
    (row' : RowData) (c : Nat) :
    getCell (rows.set i row') i c = row'.getD c "" := by
  unfold getCell
  rw [getD_set_self h]

lemma getD_applyPasteRowAux (startCol : Nat) :
    ∀ (vals : List String) (colOffset : Nat) (row : RowData), row.length = columnCount →
      ∀ c, (applyPasteRowAux startCol colOffset vals row).getD c "" =
        if startCol + colOffset ≤ c ∧ c < columnCount ∧
            c - (startCol + colOffset) < vals.length
        then vals.getD (c - (startCol + colOffset)) ""
        else row.getD c "" := by
  intro vals
  induction vals with
  | nil =>
    intro co row hrow c
    rw [show applyPasteRowAux startCol co [] row = row from rfl]
    rw [if_neg (by rintro ⟨h1, h2, h3⟩; simp at h3)]
  | cons v rest ih =>
    intro co row hrow c
    rw [show applyPasteRowAux startCol co (v :: rest) row
        = applyPasteRowAux startCol (co + 1) rest
          (if startCol + co < columnCount then row.set (startCol + co) v else row) from rfl]
    by_cases hin : startCol + co < columnCount
    · rw [if_pos hin,
        ih (co + 1) (row.set (startCol + co) v) (by rw [List.length_set]; exact hrow) c]
      simp only [← Nat.add_assoc]
      rcases Nat.lt_trichotomy c (startCol + co) with hlt | heq | hgt
      · rw [if_neg (by omega), if_neg (by omega), getD_set_ne (by omega)]
      · subst heq
        rw [if_neg (by omega), if_pos ⟨by omega, by omega, by simp⟩]
        rw [getD_set_self (by omega), Nat.sub_self, List.getD_cons_zero]
      · have hidx : c - (startCol + co) = c - (startCol + co + 1) + 1 := by omega
        rw [hidx, List.getD_cons_succ, getD_set_ne (by omega), List.length_cons]
        exact if_congr (by constructor <;> (rintro ⟨h1, h2, h3⟩; exact ⟨by omega, h2, by omega⟩))
          rfl rfl
    · rw [if_neg hin, ih (co + 1) row hrow c]
      simp only [← Nat.add_assoc]
      rw [if_neg (by rintro ⟨h1, h2, h3⟩; omega), if_neg (by rintro ⟨h1, h2, h3⟩; omega)]

lemma length_applyPasteAux (startRow startCol : Nat) :
    ∀ (grid : List (List String)) (rowOffset : Nat) (next : Worksheet),
      (applyPasteAux startRow startCol rowOffset grid next).length =
        if grid.isEmpty then next.length
        else max next.length (startRow + rowOffset + grid.length) := by
  intro grid
  induction grid with
  | nil => intro ro next; simp [applyPasteAux]
  | cons gridRow restRows ih =>
    intro ro next
    rw [show applyPasteAux startRow startCol ro (gridRow :: restRows) next
        = applyPasteAux startRow startCol (ro + 1) restRows
          ((growTo next (startRow + ro)).set (startRow + ro)
            (applyPasteRow startCol gridRow
              ((growTo next (startRow + ro)).getD (startRow + ro) []))) from rfl]
    rw [ih, List.length_set, length_growTo]
    cases restRows with
    | nil => simp
    | cons a l => simp; omega

lemma getCell_applyPasteAux (startRow startCol : Nat) :
    ∀ (grid : List (List String)) (rowOffset : Nat) (next : Worksheet), WF next →
      ∀ r c,
      getCell (applyPasteAux startRow startCol rowOffset grid next) r c =
        if startRow + rowOffset ≤ r ∧ r - (startRow + rowOffset) < grid.length ∧
            startCol ≤ c ∧ c < columnCount ∧
            c - startCol < (grid.getD (r - (startRow + rowOffset)) []).length
        then (grid.getD (r - (startRow + rowOffset)) []).getD (c - startCol) ""
        else getCell next r c := by
  intro grid
  induction grid with
  | nil =>
    intro ro next hWF r c
    rw [show applyPasteAux startRow startCol ro [] next = next from rfl]
    rw [if_neg (by rintro ⟨h1, h2, h3⟩; simp at h2)]
  | cons gridRow restRows ih =>
    intro ro next hWF r c
    rw [show applyPasteAux startRow startCol ro (gridRow :: restRows) next
        = applyPasteAux startRow startCol (ro + 1) restRows
          ((growTo next (startRow + ro)).set (startRow + ro)
            (applyPasteRow startCol gridRow
              ((growTo next (startRow + ro)).getD (startRow + ro) []))) from rfl]
    have hWFg : WF (growTo next (startRow + ro)) := wf_growTo _ hWF
    have htlt : startRow + ro < (growTo next (startRow + ro)).length := by
      rw [length_growTo]; omega
    have hrowlen : ((growTo next (startRow + ro)).getD (startRow + ro) []).length = columnCount :=
      hWFg _ (getD_mem htlt)
    have hWF' : WF ((growTo next (startRow + ro)).set (startRow + ro)
        (applyPasteRow startCol gridRow
          ((growTo next (startRow + ro)).getD (startRow + ro) []))) := by
      refine wf_set hWFg ?_ _
      rw [show applyPasteRow startCol gridRow
          ((growTo next (startRow + ro)).getD (startRow + ro) [])
          = applyPasteRowAux startCol 0 gridRow
            ((growTo next (startRow + ro)).getD (startRow + ro) []) from rfl]
      rw [length_applyPasteRowAux]
      exact hrowlen
    rw [ih (ro + 1) _ hWF' r c]
    simp only [← Nat.add_assoc]
    rcases Nat.lt_trichotomy r (startRow + ro) with hlt | heq | hgt
    · rw [if_neg (by omega), if_neg (by omega),
        getCell_set_ne (by omega), getCell_growTo]
    · subst heq
      rw [if_neg (by omega), getCell_set_self htlt]
      rw [show applyPasteRow startCol gridRow
          ((growTo next (startRow + ro)).getD (startRow + ro) [])
          = applyPasteRowAux startCol 0 gridRow
            ((growTo next (startRow + ro)).getD (startRow + ro) []) from rfl]
      rw [getD_applyPasteRowAux startCol gridRow 0 _ hrowlen c]
      simp only [Nat.add_zero, Nat.sub_self, List.getD_cons_zero]
      have hbase : ((growTo next (startRow + ro)).getD (startRow + ro) []).getD c ""
          = getCell next (startRow + ro) c := by
        rw [show ((growTo next (startRow + ro)).getD (startRow + ro) []).getD c ""
            = getCell (growTo next (startRow + ro)) (startRow + ro) c from rfl]
        rw [getCell_growTo]
      rw [hbase]
      exact if_congr
        (Iff.intro
          (fun h => ⟨by omega, by simp, h.1, h.2.1, h.2.2⟩)
          (fun h => ⟨h.2.2.1, h.2.2.2.1, h.2.2.2.2⟩))
        rfl rfl
    · have hidx : r - (startRow + ro) = r - (startRow + ro + 1) + 1 := by omega
      rw [hidx, List.getD_cons_succ, getCell_set_ne (by omega), getCell_growTo,
        List.length_cons]
      exact if_congr (by constructor <;>
        (rintro ⟨h1, h2, h3, h4, h5⟩; exact ⟨by omega, by omega, h3, h4, h5⟩)) rfl rfl

lemma Option_getD_ite {α : Type} {p : Prop} [Decidable p] (a d : α) :
    (if p then some a else none).getD d = if p then a else d := by
  split <;> rfl

lemma getCell_applyPasteData (rows : Worksheet) (startRow startCol : Nat)
    (grid : List (List String)) (hWF : WF rows) (r c : Nat) :
    getCell (applyPasteData startRow startCol grid rows) r c =
      (pasteTarget startRow startCol grid r c).getD (getCell rows r c) := by
  rw [show applyPasteData startRow startCol grid rows
      = applyPasteAux startRow startCol 0 grid rows from rfl]
  rw [getCell_applyPasteAux startRow startCol grid 0 rows hWF r c]
  simp only [Nat.add_zero]
  unfold pasteTarget
  rw [Option_getD_ite]

lemma length_applyPasteData (rows : Worksheet) (startRow startCol : Nat)
    (grid : List (List String)) :
    (applyPasteData startRow startCol grid rows).length =
      if grid.isEmpty then rows.length else max rows.length (startRow + grid.length) := by
  rw [show applyPasteData startRow startCol grid rows
      = applyPasteAux startRow startCol 0 grid rows from rfl]
  rw [length_applyPasteAux]
  simp only [Nat.zero_add, Nat.add_zero]

/-- C2: applying a parsed grid at an in-bounds start coordinate writes
each value of the grid at row offset r and column offset c to cell
(startRow + r, startCol + c), growing the worksheet with empty rows
until every target row exists (final length max(length, startRow +
gridRows)), dropping values whose target column falls outside the
nine-column schema, and leaving every other cell unchanged. -/
theorem applyPasteData_spec (rows : Worksheet) (startRow startCol : Nat)
    (grid : List (List String)) (hWF : WF rows) (_hsr : startRow < rows.length) (r c : Nat) :
    getCell (applyPasteData startRow startCol grid rows) r c =
      (pasteTarget startRow startCol grid r c).getD (getCell rows r c) ∧
    (applyPasteData startRow startCol grid rows).length =
      if grid.isEmpty then rows.length else max rows.length (startRow + grid.length) :=
  ⟨getCell_applyPasteData rows startRow startCol grid hWF r c,
   length_applyPasteData rows startRow startCol grid⟩

/-- The parsed grid of scenario D. -/
def pasteGrid : List (List String) := [["a", "b"], ["c", "d"]]

theorem applyPasteData_spec_witness :
    getCell (applyPasteData 5 7 pasteGrid freshWorksheet) 5 7 = "a" ∧
    getCell (applyPasteData 5 7 pasteGrid freshWorksheet) 6 8 = "d" ∧
    getCell (applyPasteData 5 8 pasteGrid freshWorksheet) 5 8 = "a" ∧
    getCell (applyPasteData 5 8 pasteGrid freshWorksheet) 6 8 = "c" := by
  refine ⟨?_, ?_, ?_, ?_⟩
  · rw [(applyPasteData_spec freshWorksheet 5 7 pasteGrid (by decide) (by decide) 5 7).1]
    decide
  · rw [(applyPasteData_spec freshWorksheet 5 7 pasteGrid (by decide) (by decide) 6 8).1]
    decide
  · rw [(applyPasteData_spec freshWorksheet 5 8 pasteGrid (by decide) (by decide) 5 8).1]
    decide
  · rw [(applyPasteData_spec freshWorksheet 5 8 pasteGrid (by decide) (by decide) 6 8).1]
    decide

/-! ## Paste overwrite (C9) -/

lemma getD_eq_getElem' {α : Type} {l : List α} {n : Nat} (d : α) (h : n < l.length) :
    l.getD n d = l[n] := by
  rw [List.getD_eq_getElem?_getD, List.getElem?_eq_getElem h]
  rfl

lemma worksheet_ext {w1 w2 : Worksheet} (hWF1 : WF w1) (hWF2 : WF w2)
    (hlen : w1.length = w2.length)
    (hcell : ∀ r c, getCell w1 r c = getCell w2 r c) : w1 = w2 := by
  apply List.ext_getElem hlen
  intro i h1 h2
  apply List.ext_getElem
  · rw [hWF1 _ (List.getElem_mem h1), hWF2 _ (List.getElem_mem h2)]
  · intro j hj1 hj2
    have e1 : getCell w1 i j = w1[i][j] := by
      unfold getCell
      rw [getD_eq_getElem' [] h1, getD_eq_getElem' "" hj1]
    have e2 : getCell w2 i j = w2[i][j] := by
      unfold getCell
      rw [getD_eq_getElem' [] h2, getD_eq_getElem' "" hj2]
    rw [← e1, ← e2]
    exact hcell i j

/-- C9: pasting the same grid twice at the same origin produces exactly
the worksheet of a single paste — paste overwrites, it does not merge. -/
theorem applyPasteData_overwrite (rows : Worksheet) (startRow startCol : Nat)
    (grid : List (List String)) (hWF : WF rows) :
    applyPasteData startRow startCol grid (applyPasteData startRow startCol grid rows) =
      applyPasteData startRow startCol grid rows := by
  have hWF1 : WF (applyPasteData startRow startCol grid rows) :=
    wf_applyPasteData startRow startCol grid hWF
  have hWF2 : WF (applyPasteData startRow startCol grid
      (applyPasteData startRow startCol grid rows)) :=
    wf_applyPasteData startRow startCol grid hWF1
  refine worksheet_ext hWF2 hWF1 ?_ ?_
  · rw [length_applyPasteData, length_applyPasteData rows]
    cases grid with
    | nil => simp
    | cons g rest =>
      simp only [List.isEmpty_cons, if_false, Bool.false_eq_true]
      omega
  · intro r c
    rw [getCell_applyPasteData _ startRow startCol grid hWF1 r c,
      getCell_applyPasteData rows startRow startCol grid hWF r c]
    cases pasteTarget startRow startCol grid r c with
    | none => rfl
    | some v => rfl

theorem applyPasteData_overwrite_witness :
    applyPasteData 2 3 pasteGrid (applyPasteData 2 3 pasteGrid freshWorksheet) =
      applyPasteData 2 3 pasteGrid freshWorksheet :=
  applyPasteData_overwrite freshWorksheet 2 3 pasteGrid (by decide)

/-! ## Correctness of the clipboard split (C3, C10) -/

/-- A line produced by the split carries no line-break character. -/
def noBreakChar (l : List Char) : Prop := ∀ ch ∈ l, ch ≠ '\r' ∧ ch ≠ '\n'

/-- The three line-break conventions the split consumes. -/
def isLineBreak (s : List Char) : Prop := s = ['\r', '\n'] ∨ s = ['\n'] ∨ s = ['\r']

/-- Specification of splitting on line breaks: the text is exactly the
produced lines interleaved with one consumed break between consecutive
lines, no line contains a break character, and a bare CR is only taken
as a separator when not immediately followed by LF (the CRLF preference
of the regex alternation). -/
inductive SplitsInto : List Char → List (List Char) → Prop where
  | single (l : List Char) (h : noBreakChar l) : SplitsInto l [l]
  | more (l sep rest : List Char) (lines : List (List Char)) (h : noBreakChar l)
      (hs : isLineBreak sep) (hcr : sep = ['\r'] → rest.head? ≠ some '\n')
      (ht : SplitsInto rest lines) : SplitsInto (l ++ (sep ++ rest)) (l :: lines)

lemma splitsInto_lines_ne_nil {cs : List Char} {lines : List (List Char)}
    (h : SplitsInto cs lines) : lines ≠ [] := by
  cases h <;> simp

lemma splitLinesList_ne_nil (cs : List Char) : splitLinesList cs ≠ [] := by
  induction cs using splitLinesList.induct with
  | case1 => simp [splitLinesList]
  | case2 rest ih => simp [splitLinesList]
  | case3 rest hne ih =>
    rw [splitLinesList.eq_def]
    split <;> simp_all [@eq_comm (List Char), @eq_comm Char]
  | case4 rest ih =>
    rw [splitLinesList.eq_def]
    split <;> simp_all [@eq_comm (List Char), @eq_comm Char]
  | case5 c rest h1 h2 h3 hnil ih =>
    rw [splitLinesList.eq_def]
    split <;> simp_all [@eq_comm (List Char), @eq_comm Char]
  | case6 c rest h1 h2 h3 l ls hcons ih =>
    rw [splitLinesList.eq_def]
    split <;> simp_all [@eq_comm (List Char), @eq_comm Char]

lemma splitLinesList_cr (rest : List Char) (h : rest.head? ≠ some '\n') :
    splitLinesList ('\r' :: rest) = [] :: splitLinesList rest := by
  cases rest with
  | nil => rfl
  | cons r2 rest2 =>
    have hr2 : r2 ≠ '\n' := by
      intro he
      exact h (by rw [he]; rfl)
    rw [splitLinesList.eq_def]
    split <;> simp_all [@eq_comm (List Char), @eq_comm Char]

lemma splitLinesList_other (c : Char) (rest : List Char) (hr : c ≠ '\r') (hn : c ≠ '\n') :
    splitLinesList (c :: rest) =
      match splitLinesList rest with
      | [] => [[c]]
      | l :: ls => (c :: l) :: ls := by
  rw [splitLinesList.eq_def]
  split <;> simp_all [@eq_comm (List Char), @eq_comm Char]

lemma splitsInto_cons_inv {c : Char} (hr : c ≠ '\r') (hn : c ≠ '\n') :
    ∀ {rest l : List Char} {ls : List (List Char)},
      SplitsInto rest (l :: ls) → SplitsInto (c :: rest) ((c :: l) :: ls)
  | _, _, _, .single l0 h =>
      .single (c :: l0) (fun ch hm => by
        cases List.mem_cons.mp hm with
        | inl he => rw [he]; exact ⟨hr, hn⟩
        | inr hm2 => exact h ch hm2)
  | _, _, _, .more l0 sep rest0 lines0 h hs hcr ht =>
      .more (c :: l0) sep rest0 lines0
        (fun ch hm => by
          cases List.mem_cons.mp hm with
          | inl he => rw [he]; exact ⟨hr, hn⟩
          | inr hm2 => exact h ch hm2)
        hs hcr ht

lemma splitsInto_splitLines (cs : List Char) : SplitsInto cs (splitLinesList cs) := by
  induction cs using splitLinesList.induct with
  | case1 => exact .single [] (by intro ch h; cases h)
  | case2 rest ih =>
    exact .more [] ['\r', '\n'] rest (splitLinesList rest) (by intro ch h; cases h)
      (Or.inl rfl) (fun h => absurd h (by decide)) ih
  | case3 rest hne ih =>
    have hhead : rest.head? ≠ some '\n' := by
      intro h
      rcases List.head?_eq_some_iff.mp h with ⟨ys, hys⟩
      exact hne ys hys
    rw [splitLinesList_cr rest hhead]
    exact .more [] ['\r'] rest (splitLinesList rest) (by intro ch h; cases h)
      (Or.inr (Or.inr rfl)) (fun _ => hhead) ih
  | case4 rest ih =>
    exact .more [] ['\n'] rest (splitLinesList rest) (by intro ch h; cases h)
      (Or.inr (Or.inl rfl)) (fun h => absurd h (by decide)) ih
  | case5 c rest h1 h2 h3 hnil ih =>
    exact absurd hnil (splitLinesList_ne_nil rest)
  | case6 c rest h1 h2 h3 l ls hcons ih =>
    have hcne : c ≠ '\r' ∧ c ≠ '\n' := ⟨fun h => h2 h, fun h => h3 h⟩
    have hsplit : splitLinesList (c :: rest) = (c :: l) :: ls := by
      rw [splitLinesList_other c rest hcne.1 hcne.2, hcons]
    rw [hsplit]
    rw [hcons] at ih
    exact splitsInto_cons_inv hcne.1 hcne.2 ih

lemma getLast?_cons_ne {α : Type} (a : α) {l : List α} (h : l ≠ []) :
    (a :: l).getLast? = l.getLast? := by
  cases l with
  | nil => exact absurd rfl h
  | cons b t => exact List.getLast?_cons_cons

lemma splitsInto_singleton {cs l : List Char} (h : SplitsInto cs [l]) :
    cs = l ∧ noBreakChar l := by
  cases h with
  | single _ hnb => exact ⟨rfl, hnb⟩
  | more l0 sep rest lines0 hnb hs hcr ht =>
    exact absurd rfl (splitsInto_lines_ne_nil ht)

lemma splitLines_getLast_of_break (cs : List Char) (hne : cs ≠ [])
    (hend : cs.getLast? = some '\n' ∨ cs.getLast? = some '\r') :
    (splitLinesList cs).getLast? = some [] := by
  induction cs using splitLinesList.induct with
  | case1 => exact absurd rfl hne
  | case2 rest ih =>
    rw [show splitLinesList ('\r' :: '\n' :: rest) = [] :: splitLinesList rest from rfl,
      getLast?_cons_ne [] (splitLinesList_ne_nil rest)]
    cases rest with
    | nil => rfl
    | cons y ys =>
      refine ih (by simp) ?_
      rw [getLast?_cons_ne '\r' (by simp), getLast?_cons_ne '\n' (by simp)] at hend
      exact hend
  | case3 rest hA ih =>
    have hhead : rest.head? ≠ some '\n' := by
      intro h
      rcases List.head?_eq_some_iff.mp h with ⟨ys, hys⟩
      exact hA ys hys
    rw [splitLinesList_cr rest hhead, getLast?_cons_ne [] (splitLinesList_ne_nil rest)]
    cases rest with
    | nil => rfl
    | cons y ys =>
      refine ih (by simp) ?_
      rw [getLast?_cons_ne '\r' (by simp)] at hend
      exact hend
  | case4 rest ih =>
    rw [show splitLinesList ('\n' :: rest) = [] :: splitLinesList rest from rfl,
      getLast?_cons_ne [] (splitLinesList_ne_nil rest)]
    cases rest with
    | nil => rfl
    | cons y ys =>
      refine ih (by simp) ?_
      rw [getLast?_cons_ne '\n' (by simp)] at hend
      exact hend
  | case5 c rest h1 h2 h3 hnil ih =>
    exact absurd hnil (splitLinesList_ne_nil rest)
  | case6 c rest h1 h2 h3 l ls hcons ih =>
    have hsplit : splitLinesList (c :: rest) = (c :: l) :: ls := by
      rw [splitLinesList_other c rest (fun h => h2 h) (fun h => h3 h), hcons]
    cases rest with
    | nil =>
      rcases hend with hend | hend
      · exact absurd (Option.some.inj hend) (fun h => h3 h)
      · exact absurd (Option.some.inj hend) (fun h => h2 h)
    | cons y ys =>
      have hend' : (y :: ys).getLast? = some '\n' ∨ (y :: ys).getLast? = some '\r' := by
        rw [getLast?_cons_ne c (by simp)] at hend
        exact hend
      have hlast : (splitLinesList (y :: ys)).getLast? = some [] := ih (by simp) hend'
      rw [hcons] at hlast
      rw [hsplit]
      cases ls with
      | nil =>
        have hl : l = [] := by simpa using hlast
        have hsing : SplitsInto (y :: ys) [l] := by
          have hsp := splitsInto_splitLines (y :: ys)
          rw [hcons] at hsp
          exact hsp
        have heq : y :: ys = l := (splitsInto_singleton hsing).1
        rw [hl] at heq
        exact absurd heq (by simp)
      | cons y2 ys2 =>
        rw [getLast?_cons_ne (c :: l) (by simp)]
        rw [getLast?_cons_ne l (by simp)] at hlast
        exact hlast

/-! ### Tab splitting -/

lemma splitTabs_ne_nil (l : List Char) : splitTabs l ≠ [] := by
  cases l with
  | nil => simp [splitTabs]
  | cons c rest =>
    rw [show splitTabs (c :: rest)
        = if c = '\t' then [] :: splitTabs rest
          else match splitTabs rest with
            | [] => [[c]]
            | l :: ls => (c :: l) :: ls from rfl]
    split
    · simp
    · split <;> simp

/-- The join that undoes the tab split: cells separated by single tabs. -/
def joinTabs : List (List Char) → List Char
  | [] => []
  | [cell] => cell
  | cell :: rest => cell ++ '\t' :: joinTabs rest

lemma joinTabs_splitTabs (l : List Char) : joinTabs (splitTabs l) = l := by
  induction l with
  | nil => rfl
  | cons c rest ih =>
    obtain ⟨x, xs, hx⟩ : ∃ x xs, splitTabs rest = x :: xs := by
      cases hsp : splitTabs rest with
      | nil => exact absurd hsp (splitTabs_ne_nil rest)
      | cons x xs => exact ⟨x, xs, rfl⟩
    rw [show splitTabs (c :: rest)
        = if c = '\t' then [] :: splitTabs rest
          else match splitTabs rest with
            | [] => [[c]]
            | l :: ls => (c :: l) :: ls from rfl]
    by_cases h : c = '\t'
    · rw [if_pos h, hx]
      rw [show joinTabs ([] :: x :: xs) = [] ++ '\t' :: joinTabs (x :: xs) from rfl]
      rw [← hx, ih, h]
      rfl
    · rw [if_neg h, hx]
      cases xs with
      | nil =>
        rw [show joinTabs [c :: x] = c :: x from rfl]
        have hr : rest = x := by
          rw [← ih, hx]
          rfl
        rw [hr]
      | cons y ys =>
        rw [show joinTabs ((c :: x) :: y :: ys) = (c :: x) ++ '\t' :: joinTabs (y :: ys) from rfl]
        have hr : rest = x ++ '\t' :: joinTabs (y :: ys) := by
          rw [← ih, hx]
          rfl
        rw [hr]
        rfl

lemma noTab_splitTabs (l : List Char) : ∀ cell ∈ splitTabs l, '\t' ∉ cell := by
  induction l with
  | nil =>
    intro cell h
    rw [show splitTabs [] = [[]] from rfl] at h
    rcases List.mem_cons.mp h with h | h
    · rw [h]; simp
    · cases h
  | cons c rest ih =>
    intro cell hm
    obtain ⟨x, xs, hx⟩ : ∃ x xs, splitTabs rest = x :: xs := by
      cases hsp : splitTabs rest with
      | nil => exact absurd hsp (splitTabs_ne_nil rest)
      | cons x xs => exact ⟨x, xs, rfl⟩
    rw [show splitTabs (c :: rest)
        = if c = '\t' then [] :: splitTabs rest
          else match splitTabs rest with
            | [] => [[c]]
            | l :: ls => (c :: l) :: ls from rfl] at hm
    by_cases h : c = '\t'
    · rw [if_pos h] at hm
      rcases List.mem_cons.mp hm with h1 | h1
      · rw [h1]; simp
      · exact ih cell h1
    · rw [if_neg h, hx] at hm
      rcases List.mem_cons.mp hm with h1 | h1
      · rw [h1]
        intro hmem
        rcases List.mem_cons.mp hmem with h2 | h2
        · exact h h2.symm
        · exact ih x (by rw [hx]; exact List.mem_cons_self x xs) h2
      · exact ih cell (by rw [hx]; exact List.mem_cons_of_mem _ h1)

/-- C3: the parse step splits the clipboard text into lines on CRLF,
bare LF or bare CR (preferring CRLF), splits lines into cells on tabs,
and keeps every cell verbatim — joining the cells back with tabs gives
each line back and no cell contains a delimiter; an empty clipboard
string makes the whole paste a no-op. -/
theorem handlePaste_parse_spec :
    (∀ (rows : Worksheet) (r c : Nat), handlePaste r c "" rows = rows) ∧
    (∀ (text : String) (rows : Worksheet) (r c : Nat), text ≠ "" →
      handlePaste r c text rows = applyPasteData r c (parseClipboard text) rows) ∧
    (∀ cs : List Char, SplitsInto cs (splitLinesList cs)) ∧
    (∀ l : List Char, joinTabs (splitTabs l) = l ∧ ∀ cell ∈ splitTabs l, '\t' ∉ cell) :=
  ⟨fun rows r c => by rw [handlePaste, if_pos rfl],
   fun text rows r c h => by rw [handlePaste, if_neg h],
   fun cs => splitsInto_splitLines cs,
   fun l => ⟨joinTabs_splitTabs l, noTab_splitTabs l⟩⟩

theorem handlePaste_parse_spec_witness :
    handlePaste 0 0 "" freshWorksheet = freshWorksheet ∧
    SplitsInto "a\rb".data (splitLinesList "a\rb".data) ∧
    handlePaste 1 2 "x" freshWorksheet = applyPasteData 1 2 (parseClipboard "x") freshWorksheet :=
  ⟨handlePaste_parse_spec.1 freshWorksheet 0 0,
   handlePaste_parse_spec.2.2.1 "a\rb".data,
   handlePaste_parse_spec.2.1 "x" freshWorksheet 1 2 (by decide)⟩

/-! ## Trailing line break (C10) -/

lemma parseClipboard_getLast (text : String) (hne : text.data ≠ [])
    (hend : text.data.getLast? = some '\n' ∨ text.data.getLast? = some '\r') :
    (parseClipboard text).getLast? = some [""] := by
  unfold parseClipboard
  rw [List.getLast?_map, splitLines_getLast_of_break text.data hne hend]
  rfl

/-- C10: a non-empty clipboard text ending in a line break parses to a
grid whose final row is the single empty string, so the paste overwrites
the cell one row below the last content line, at the paste column, with
the empty string, growing the worksheet to make that row exist. -/
theorem trailing_break_paste (text : String) (rows : Worksheet) (r c : Nat)
    (hWF : WF rows) (hne : text.data ≠ [])
    (hend : text.data.getLast? = some '\n' ∨ text.data.getLast? = some '\r')
    (hc : c < columnCount) :
    (parseClipboard text).getLast? = some [""] ∧
    r + (parseClipboard text).length - 1 < (handlePaste r c text rows).length ∧
    getCell (handlePaste r c text rows) (r + (parseClipboard text).length - 1) c = "" := by
  have hlast := parseClipboard_getLast text hne hend
  have hpne : parseClipboard text ≠ [] := by
    unfold parseClipboard
    intro h
    exact splitLinesList_ne_nil text.data (List.map_eq_nil_iff.mp h)
  have hplen : 1 ≤ (parseClipboard text).length := by
    cases hp : parseClipboard text with
    | nil => exact absurd hp hpne
    | cons a l => simp
  have htext : text ≠ "" := fun h => hne (by rw [h])
  have hhp : handlePaste r c text rows = applyPasteData r c (parseClipboard text) rows := by
    rw [handlePaste, if_neg htext]
  have hgetD : (parseClipboard text).getD ((parseClipboard text).length - 1) [] = [""] := by
    have he := List.getLast?_eq_getElem? (parseClipboard text)
    rw [hlast] at he
    rw [List.getD_eq_getElem?_getD, ← he]
    rfl
  have hfalse : (parseClipboard text).isEmpty = false := List.isEmpty_eq_false.mpr hpne
  refine ⟨hlast, ?_, ?_⟩
  · rw [hhp, length_applyPasteData, hfalse]
    simp only [Bool.false_eq_true, if_false]
    omega
  · rw [hhp, getCell_applyPasteData rows r c _ hWF]
    have hidx : r + (parseClipboard text).length - 1 - r = (parseClipboard text).length - 1 := by
      omega
    have hcond : r ≤ r + (parseClipboard text).length - 1 ∧
        r + (parseClipboard text).length - 1 - r < (parseClipboard text).length ∧
        c ≤ c ∧ c < columnCount ∧
        c - c < ((parseClipboard text).getD
          (r + (parseClipboard text).length - 1 - r) []).length := by
      refine ⟨by omega, by omega, by omega, hc, ?_⟩
      rw [hidx, hgetD]
      simp
    unfold pasteTarget
    rw [if_pos hcond, hidx, hgetD, Nat.sub_self]
    rfl

theorem trailing_break_paste_witness :
    (parseClipboard "a\n").getLast? = some [""] ∧
    2 + (parseClipboard "a\n").length - 1 < (handlePaste 2 3 "a\n" freshWorksheet).length ∧
    getCell (handlePaste 2 3 "a\n" freshWorksheet)
      (2 + (parseClipboard "a\n").length - 1) 3 = "" :=
  trailing_break_paste "a\n" freshWorksheet 2 3 (by decide) (by decide) (by decide) (by decide)

end ExcelApp
